import Mathlib

/-!
Shallow embedding of the Forth interpreter implemented in `src/forth.rs`.

Modelling choices, kept uniform through the whole file:

* Rust `f64` numbers are modelled by `ℚ`.  Every literal appearing in the
  claims is a small integer, where `f64` arithmetic is exact, so `ℚ`
  arithmetic coincides with the source.  The Rust float remainder `%` is
  modelled by `fmod` below (remainder of the division truncated toward
  zero, which is the `f64 %` semantics on exactly representable values).
  Non-finite literals (`inf`, `nan`) have no counterpart in `ℚ` and are
  outside the model.
* The stack `Vec<f64>` (push/pop at the end) is a `List ℚ` whose HEAD is
  the TOP of the stack; `Vec` order (bottom to top) is the reverse.
* The dictionary `HashMap<String, Token>` is an association list; insertion
  prepends (`State.defineWord`) and lookup takes the first match, which
  gives exactly the overwrite/lookup behaviour of the hash map.
* Character output (`print!`, `println!`) is modelled by appending abstract
  `OutEvent`s to an output trace carried in the state; the exact text
  format of the Rust printer is not modelled, only which event happens with
  which payload, in order.
* Rust `to_lowercase`/`trim` are modelled per character (`Char.toLower`,
  `Char.isWhitespace`); they agree with Rust on ASCII, which covers all
  builtin names and everything in the claims.
* The mutually recursive evaluation (`Token::eval` calling
  `ForthBuiltin::eval` and, through dictionary lookups, evaluating stored
  definition bodies) is not structurally terminating on arbitrary states,
  so evaluation takes an explicit fuel argument and returns `none` when the
  fuel runs out; any `some` result is the result of the Rust code.
* Rust methods that mutate `&mut self` and may fail with `?` become
  functions returning a pair of an `Except` result and the updated state,
  so that partial mutation before a failure is represented faithfully
  (in particular `State::pop2`, which pops eagerly).
-/

/-- Error enum mirroring `ForthError` in the source.  The payload of
`invalidWord` is produced in the source by Rust's derived `Debug` formatter;
that string rendering is abstracted by `tokDebug`/`tokListDebug` below. -/
inductive ForthError where
  | divisionByZero
  | stackUnderflow
  | unknownWord (w : String)
  | invalidWord (detail : String)
  | unterminated
  | userQuit
deriving DecidableEq

/-- Builtin enum mirroring `ForthBuiltin` in the source. -/
inductive ForthBuiltin where
  | Add
  | Subtract
  | Multiply
  | Divide
  | Bye
  | CR
  | Display
  | Drop
  | Dup
  | TwoDrop
  | TwoDup
  | Emit
  | Mod
  | SlashMod
  | Over
  | TwoOver
  | Rot
  | Show
  | Space
  | Spaces
  | Swap
  | TwoSwap
deriving DecidableEq

/-- Token type mirroring `Token` in the source: `Number`, `Builtin`, `Word`,
`Definition` and `UserDefined` (the raw, not yet resolved capture of a
definition block). -/
inductive Token where
  | num (value : ℚ)
  | builtin (b : ForthBuiltin)
  | word (w : String)
  | definition (body : List Token)
  | userDefined (body : List Token)

/-- One abstract output event for each kind of character output performed by
the builtins: `newline` for `cr`, `space` for `space`, `text n` for `.`
printing `n`, `charOut n` for `emit` (the source casts `n` to `u8` and prints
that character; the cast is not modelled, the popped value is recorded),
`spacesOut n` for `spaces`, and `shown st` for `.s` (the stack recorded
bottom to top, as the source prints it). -/
inductive OutEvent where
  | newline
  | space
  | text (n : ℚ)
  | charOut (n : ℚ)
  | spacesOut (n : ℚ)
  | shown (stack : List ℚ)

/-- Session state mirroring `State` in the source (dictionary plus stack),
extended with the output trace `out` that models the characters written to
stdout.  The stack list holds the TOP of the stack at its HEAD. -/
structure State where
  dictionary : List (String × Token)
  stack : List ℚ
  out : List OutEvent

/-- ASCII lowercasing of a string, modelling Rust's `to_lowercase` (they
agree on ASCII input, which covers every name the program recognises). -/
def lowerStr (s : String) : String := List.asString (s.data.map Char.toLower)

/-- Mirrors `State::define_word`: insert under the lower-cased name,
overwriting any previous binding (prepending to the association list makes
the new binding the one found by `State.lookup`). -/
def State.defineWord (s : State) (word : String) (value : Token) : State :=
  { s with dictionary := (lowerStr word, value) :: s.dictionary }

/-- Mirrors `State::lookup`: look up the lower-cased name, first (most
recent) binding wins. -/
def State.lookup (s : State) (word : String) : Option Token :=
  (s.dictionary.find? (fun p => p.1 = lowerStr word)).map (fun p => p.2)

/-- Mirrors `State::top`: peek at the most recently pushed element without
removing it. -/
def State.top (s : State) : Except ForthError ℚ :=
  match s.stack with
  | [] => .error .stackUnderflow
  | v :: _ => .ok v

/-- Mirrors `State::push`. -/
def State.push (s : State) (value : ℚ) : State :=
  { s with stack := value :: s.stack }

/-- Mirrors `State::pop`: remove and return the top element; on an empty
stack fail with `StackUnderflow` leaving the state unchanged. -/
def State.pop (s : State) : Except ForthError ℚ × State :=
  match s.stack with
  | [] => (.error .stackUnderflow, s)
  | v :: rest => (.ok v, { s with stack := rest })

/-- Mirrors `State::pop2`, which evaluates `(self.stack.pop(),
self.stack.pop())`: BOTH pops run eagerly, so on a one-element stack the
single element is removed before the underflow is reported.  The returned
pair is `(top, second)` exactly like the source. -/
def State.pop2 (s : State) : Except ForthError (ℚ × ℚ) × State :=
  match s.stack with
  | v1 :: v2 :: rest => (.ok (v1, v2), { s with stack := rest })
  | [_] =>
    -- first pop removed the single element, second pop returned `None`
    (.error .stackUnderflow, { s with stack := ([] : List ℚ) })
  | [] => (.error .stackUnderflow, s)

/-- Appending one output event, modelling one `print!`-family call. -/
def State.output (s : State) (e : OutEvent) : State :=
  { s with out := s.out ++ [e] }

/-- Truncation of a rational toward zero (`Int.tdiv` is T-division), used to
model the Rust `f64` remainder operator. -/
def qtrunc (q : ℚ) : ℤ := Int.tdiv q.num q.den

/-- Model of the Rust `f64 %` operator (`n1 % n2` in `Mod`/`SlashMod`):
remainder after division truncated toward zero. -/
def fmod (a b : ℚ) : ℚ := a - b * (qtrunc (a / b) : ℚ)

/-- Mirrors `ForthBuiltin::try_from(&str)`: the fixed table of builtin
names.  The source returns `Err(UnknownWord(input))` for other strings; the
only caller, `Token::parse_word`, discards that error and builds its own, so
`none` is a faithful model of the failure case. -/
def builtinFromStr : String → Option ForthBuiltin
  | "." => some .Display
  | "+" => some .Add
  | "-" => some .Subtract
  | "*" => some .Multiply
  | "/" => some .Divide
  | "bye" => some .Bye
  | "quit" => some .Bye
  | "cr" => some .CR
  | "dup" => some .Dup
  | "2dup" => some .TwoDup
  | "drop" => some .Drop
  | "2drop" => some .TwoDrop
  | "emit" => some .Emit
  | "/mod" => some .SlashMod
  | "mod" => some .Mod
  | "over" => some .Over
  | "2over" => some .TwoOver
  | "rot" => some .Rot
  | ".s" => some .Show
  | "space" => some .Space
  | "spaces" => some .Spaces
  | "swap" => some .Swap
  | "2swap" => some .TwoSwap
  | _ => none

/-- Mirrors `Token::parse_word`: try the builtin table on the lower-cased
word, otherwise `UnknownWord` carrying the ORIGINAL (not lower-cased)
spelling.  The source wraps the builtin in `Token::Builtin`; since the only
uses immediately evaluate or store it, the bare builtin is returned here and
wrapped at each use site. -/
def Token.parseWord (word : String) : Except ForthError ForthBuiltin :=
  match builtinFromStr (lowerStr word) with
  | some b => .ok b
  | none => .error (.unknownWord word)

/-- Abstraction of `format!("{:?}", token)` used for `InvalidWord` payloads
(the derived Rust `Debug` text is not reproduced; no claim depends on it). -/
def tokDebug : Token → String
  | .num _ => ("Number")
  | .builtin _ => ("Builtin")
  | .word w => String.append ("Word ") w
  | .definition _ => ("Definition")
  | .userDefined _ => ("UserDefined")

/-- Abstraction of `format!("{:?}", tokens)` for a token list, see
`tokDebug`. -/
def tokListDebug (l : List Token) : String :=
  String.intercalate (" ") (l.map tokDebug)

/-- Mirrors `Token::lookup_definition`: a `Word` is replaced by its current
dictionary binding, or failing that by the builtin it names (error
`UnknownWord` if neither); every other token passes through unchanged. -/
def Token.lookupDefinition (s : State) (t : Token) : Except ForthError Token :=
  match t with
  | .word w =>
    match State.lookup s w with
    | some value => .ok value
    | none =>
      match Token.parseWord w with
      | .ok b => .ok (.builtin b)
      | .error e => .error e
  | t => .ok t

/-- The `collect::<Result<Vec<_>, _>>()` over `lookup_definition` in
`Token::eval_user_defined`: resolve each body token in order, stopping at
the first error. -/
def Token.lookupDefList (s : State) : List Token → Except ForthError (List Token)
  | [] => .ok []
  | t :: rest =>
    match Token.lookupDefinition s t with
    | .error e => .error e
    | .ok t2 =>
      match Token.lookupDefList s rest with
      | .error e => .error e
      | .ok ts => .ok (t2 :: ts)

/-- Mirrors `Token::eval_user_defined`: the captured block must start with a
`Word` naming the definition; the remaining tokens are resolved against the
CURRENT dictionary (`lookup_definition`) and the fully resolved body is
installed under the name.  Any other shape is `InvalidWord`. -/
def Token.evalUserDefined (s : State) (body : List Token) :
    Except ForthError (Option ℚ) × State :=
  match body with
  | .word name :: rest =>
    match Token.lookupDefList s rest with
    | .ok collected => (.ok none, State.defineWord s name (.definition collected))
    | .error e => (.error e, s)
  | _ => (.error (.invalidWord (tokListDebug body)), s)

/-- Mirrors `ForthBuiltin::eval` arm by arm.  Every success returns
`Ok(None)` like the source (builtins push directly onto the stack and never
produce a value for the caller).  Failures may leave the state partially
mutated, exactly as the eager pops of the source do. -/
def ForthBuiltin.eval (b : ForthBuiltin) (s : State) :
    Except ForthError (Option ℚ) × State :=
  match b with
  | .Add =>
    match State.pop2 s with
    | (.error e, s2) => (.error e, s2)
    | (.ok (n2, n1), s2) => (.ok none, State.push s2 (n1 + n2))
  | .Subtract =>
    match State.pop2 s with
    | (.error e, s2) => (.error e, s2)
    | (.ok (n2, n1), s2) => (.ok none, State.push s2 (n1 - n2))
  | .Multiply =>
    match State.pop2 s with
    | (.error e, s2) => (.error e, s2)
    | (.ok (n2, n1), s2) => (.ok none, State.push s2 (n1 * n2))
  | .Divide =>
    match State.pop2 s with
    | (.error e, s2) => (.error e, s2)
    | (.ok (n2, n1), s2) =>
      if n2 = 0 then (.error .divisionByZero, s2)
      else (.ok none, State.push s2 (n1 / n2))
  | .Mod =>
    match State.pop2 s with
    | (.error e, s2) => (.error e, s2)
    | (.ok (n2, n1), s2) =>
      if n2 = 0 then (.error .divisionByZero, s2)
      else (.ok none, State.push s2 (fmod n1 n2))
  | .SlashMod =>
    match State.pop2 s with
    | (.error e, s2) => (.error e, s2)
    | (.ok (n2, n1), s2) =>
      if n2 = 0 then (.error .divisionByZero, s2)
      else (.ok none, State.push (State.push s2 (fmod n1 n2)) (n1 / n2))
  | .Bye => (.error .userQuit, s)
  | .CR => (.ok none, State.output s .newline)
  | .Display =>
    match State.pop s with
    | (.error e, s2) => (.error e, s2)
    | (.ok v, s2) => (.ok none, State.output s2 (.text v))
  | .Drop =>
    match State.pop s with
    | (.error e, s2) => (.error e, s2)
    | (.ok _, s2) => (.ok none, s2)
  | .TwoDrop =>
    match State.pop2 s with
    | (.error e, s2) => (.error e, s2)
    | (.ok _, s2) => (.ok none, s2)
  | .Dup =>
    match State.top s with
    | .error e => (.error e, s)
    | .ok n => (.ok none, State.push s n)
  | .TwoDup =>
    match State.pop2 s with
    | (.error e, s2) => (.error e, s2)
    | (.ok (n2, n1), s2) =>
      (.ok none, State.push (State.push (State.push (State.push s2 n1) n2) n1) n2)
  | .Emit =>
    match State.pop s with
    | (.error e, s2) => (.error e, s2)
    | (.ok v, s2) => (.ok none, State.output s2 (.charOut v))
  | .Over =>
    match State.pop2 s with
    | (.error e, s2) => (.error e, s2)
    | (.ok (n2, n1), s2) =>
      (.ok none, State.push (State.push (State.push s2 n1) n2) n1)
  | .TwoOver =>
    match State.pop2 s with
    | (.error e, s2) => (.error e, s2)
    | (.ok (n4, n3), s2) =>
      match State.pop2 s2 with
      | (.error e, s3) => (.error e, s3)
      | (.ok (n2, n1), s3) =>
        (.ok none, State.push (State.push (State.push (State.push
          (State.push (State.push s3 n1) n2) n3) n4) n1) n2)
  | .Rot =>
    match State.pop2 s with
    | (.error e, s2) => (.error e, s2)
    | (.ok (n3, n2), s2) =>
      match State.pop s2 with
      | (.error e, s3) => (.error e, s3)
      | (.ok n1, s3) =>
        (.ok none, State.push (State.push (State.push s3 n2) n3) n1)
  | .Show => (.ok none, State.output s (.shown s.stack.reverse))
  | .Space => (.ok none, State.output s .space)
  | .Spaces =>
    match State.pop s with
    | (.error e, s2) => (.error e, s2)
    | (.ok v, s2) => (.ok none, State.output s2 (.spacesOut v))
  | .Swap =>
    match State.pop2 s with
    | (.error e, s2) => (.error e, s2)
    | (.ok (n2, n1), s2) => (.ok none, State.push (State.push s2 n2) n1)
  | .TwoSwap =>
    match State.pop2 s with
    | (.error e, s2) => (.error e, s2)
    | (.ok (n4, n3), s2) =>
      match State.pop2 s2 with
      | (.error e, s3) => (.error e, s3)
      | (.ok (n2, n1), s3) =>
        (.ok none, State.push (State.push (State.push (State.push s3 n3) n4) n1) n2)

/-- Push the produced value if there is one (the `if let Some(value) = ...
{ state.push(value) }` pattern of `eval_definition` and `Forth::run`). -/
def pushOpt (r : Option ℚ) (s : State) : State :=
  match r with
  | some v => State.push s v
  | none => s

/-- Combined evaluator for a single token (`Sum.inl`, mirroring
`Token::eval`) and for a token sequence evaluated as a definition body
(`Sum.inr`, mirroring `Token::eval_definition`, which pushes each produced
value and finally returns `Ok(None)`).  The two are one function structurally
recursive on the fuel so that the kernel can evaluate it; `none` means the
fuel ran out (the Rust code simply recurses).  The `Word` arm mirrors
`Token::eval_word`: a stored `Number` produces its value, a stored
`Definition` has its body evaluated, any other stored token is
`InvalidWord`, and an unbound name falls back to `parse_word` whose builtin
is evaluated directly. -/
def evalCore : Nat → Token ⊕ List Token → State →
    Option (Except ForthError (Option ℚ) × State)
  | 0, _, _ => none
  | _ + 1, Sum.inl (.num n), s => some (.ok (some n), s)
  | _ + 1, Sum.inl (.builtin b), s => some (ForthBuiltin.eval b s)
  | _ + 1, Sum.inl (.userDefined body), s => some (Token.evalUserDefined s body)
  | fuel + 1, Sum.inl (.definition body), s =>
    evalCore fuel (Sum.inr body) s
  | fuel + 1, Sum.inl (.word w), s =>
    match State.lookup s w with
    | some (.num v) => some (.ok (some v), s)
    | some (.definition body) => evalCore fuel (Sum.inr body) s
    | some t2 => some (.error (.invalidWord (tokDebug t2)), s)
    | none =>
      match Token.parseWord w with
      | .ok b => some (ForthBuiltin.eval b s)
      | .error e => some (.error e, s)
  | _ + 1, Sum.inr [], s => some (.ok none, s)
  | fuel + 1, Sum.inr (t :: rest), s =>
    match evalCore fuel (Sum.inl t) s with
    | none => none
    | some (.error e, s2) => some (.error e, s2)
    | some (.ok r, s2) => evalCore fuel (Sum.inr rest) (pushOpt r s2)

/-- Mirrors `Token::eval` (with explicit fuel, see `evalCore`). -/
def Token.eval (fuel : Nat) (t : Token) (s : State) :
    Option (Except ForthError (Option ℚ) × State) :=
  evalCore fuel (Sum.inl t) s

/-- The loop body of `Forth::run`: evaluate the tokens in order, pushing each
produced value, remembering the LAST produced value (also when it is
`None`); an error aborts with the state mutated so far. -/
def Forth.runGo (fuel : Nat) : List Token → State → Option ℚ →
    Option (Except ForthError (Option ℚ) × State)
  | [], s, result => some (.ok result, s)
  | t :: rest, s, _ =>
    match evalCore fuel (Sum.inl t) s with
    | none => none
    | some (.error e, s2) => some (.error e, s2)
    | some (.ok r, s2) => Forth.runGo fuel rest (pushOpt r s2) r

/-- Mirrors `Forth::run`. -/
def Forth.run (fuel : Nat) (tokens : List Token) (s : State) :
    Option (Except ForthError (Option ℚ) × State) :=
  Forth.runGo fuel tokens s none

/-- Split a character list at every single space character, keeping empty
fragments, exactly like Rust's `str::split(' ')`. -/
def splitSp : List Char → List (List Char)
  | [] => [[]]
  | c :: rest =>
    if c = ' ' then [] :: splitSp rest
    else
      match splitSp rest with
      | [] => [[c]]
      | w :: ws => (c :: w) :: ws

/-- Mirrors `Forth::lex`: split the line on the space character (the source
wraps the result in `Ok`, and never fails; the `Result` wrapper is elided). -/
def Forth.lex (line : List Char) : List String :=
  (splitSp line).map List.asString

/-- Decimal value of a digit list. -/
def decValue (ds : List Char) : ℕ :=
  ds.foldl (fun a c => a * 10 + (c.toNat - 48)) 0

/-- Exponent part of a float literal: optional sign then at least one digit,
consuming the whole remainder. -/
def parseExp (cs : List Char) : Option ℤ :=
  match cs with
  | '-' :: r =>
    match r.span Char.isDigit with
    | (eds, rest) => if eds.isEmpty || !rest.isEmpty then none
                     else some (-(decValue eds : ℤ))
  | '+' :: r =>
    match r.span Char.isDigit with
    | (eds, rest) => if eds.isEmpty || !rest.isEmpty then none
                     else some (decValue eds : ℤ)
  | _ =>
    match cs.span Char.isDigit with
    | (eds, rest) => if eds.isEmpty || !rest.isEmpty then none
                     else some (decValue eds : ℤ)

/-- Model of `str::parse::<f64>()` on the finite-literal grammar: optional
sign, integer digits, optional fraction, optional exponent, with at least
one digit overall.  The result is the exact rational value of the literal.
(The `inf`/`nan` spellings accepted by Rust have no `ℚ` counterpart and are
outside the model; no claim involves them.) -/
def parseNum (s : String) : Option ℚ :=
  match s.data with
  | cs =>
    match (match cs with
           | '-' :: r => (true, r)
           | '+' :: r => (false, r)
           | _ => (false, cs) : Bool × List Char) with
    | (neg, cs1) =>
      match cs1.span Char.isDigit with
      | (ids, cs2) =>
        match (match cs2 with
               | '.' :: r => r.span Char.isDigit
               | _ => (([] : List Char), cs2)) with
        | (fds, cs3) =>
          if ids.isEmpty && fds.isEmpty then none
          else
            let mant : ℚ := (decValue (ids ++ fds) : ℚ) / (10 : ℚ) ^ fds.length
            let mant : ℚ := if neg then -mant else mant
            match cs3 with
            | [] => some mant
            | 'e' :: r => (parseExp r).map (fun e => mant * (10 : ℚ) ^ e)
            | 'E' :: r => (parseExp r).map (fun e => mant * (10 : ℚ) ^ e)
            | _ => none

/-- One placement step of `Forth::tokenize`: inside a capture region the
token goes to the buffer, otherwise it goes to the top-level stream and the
buffer is cleared (the source clears a non-empty buffer; clearing an empty
buffer is the identity, so the result is `[]` either way). -/
def Forth.tokenizePlace (toks buf : List Token) (inUD : Bool) (tok : Token) :
    List Token × List Token :=
  if inUD then (toks, buf ++ [tok]) else (toks ++ [tok], ([] : List Token))

/-- The loop of `Forth::tokenize` over the lexemes, carrying the emitted
top-level tokens, the capture buffer and the `in_user_defined` flag.  `":"`
only sets the flag; a lexeme parsing as a number becomes `num`; `";"`
clears the flag and emits `userDefined` over the buffered tokens (the flag
is cleared BEFORE the placement, so the `userDefined` token goes to the
top-level stream); anything else becomes `word`.  Input ending with the
flag still set is `Unterminated`. -/
def Forth.tokenizeGo : List String → List Token → List Token → Bool →
    Except ForthError (List Token)
  | [], toks, _, inUD => if inUD then .error .unterminated else .ok toks
  | item :: rest, toks, buf, inUD =>
    if item = (":" : String) then Forth.tokenizeGo rest toks buf true
    else
      match parseNum item with
      | some v =>
        match Forth.tokenizePlace toks buf inUD (.num v) with
        | (toks2, buf2) => Forth.tokenizeGo rest toks2 buf2 inUD
      | none =>
        if item = (";" : String) then
          match Forth.tokenizePlace toks buf false (.userDefined buf) with
          | (toks2, buf2) => Forth.tokenizeGo rest toks2 buf2 false
        else
          match Forth.tokenizePlace toks buf inUD (.word item) with
          | (toks2, buf2) => Forth.tokenizeGo rest toks2 buf2 inUD

/-- Mirrors `Forth::tokenize`. -/
def Forth.tokenize (input : List String) : Except ForthError (List Token) :=
  Forth.tokenizeGo input ([] : List Token) ([] : List Token) false

/-- Rust `str::trim` on the character list (both models agree on ASCII
whitespace). -/
def trimChars (cs : List Char) : List Char :=
  (((cs.dropWhile Char.isWhitespace).reverse).dropWhile Char.isWhitespace).reverse

/-- Mirrors `Forth::eval`: trim, short-circuit the empty line, then lex,
tokenize and run.  A tokenize failure leaves the state untouched (the
dictionary is only written later, by `run` executing `userDefined` tokens);
a run failure keeps the mutations made before the failing token. -/
def Forth.eval (fuel : Nat) (s : State) (input : String) :
    Option (Except ForthError (Option ℚ) × State) :=
  match trimChars input.data with
  | line =>
    if line.isEmpty then some (.ok none, s)
    else
      match Forth.tokenize (Forth.lex line) with
      | .error e => some (.error e, s)
      | .ok tokens => Forth.run fuel tokens s

/-- Mirrors `Forth::new` / `State::new`: empty dictionary and stack. -/
def Forth.new : State :=
  { dictionary := ([] : List (String × Token)), stack := ([] : List ℚ),
    out := ([] : List OutEvent) }

/-- State reached after one `eval` call (the state is kept unchanged when
the fuel runs out, which never happens in the concrete claims). -/
def stateAfter (fuel : Nat) (s : State) (input : String) : State :=
  match Forth.eval fuel s input with
  | some (_, s2) => s2
  | none => s

/-- Fully resolved token, the shape the spec requires of stored dictionary
values: a number, a builtin, or a definition whose body is again fully
resolved — never a bare `word` and never a raw `userDefined` capture. -/
inductive Resolved : Token → Prop where
  | num : ∀ n, Resolved (.num n)
  | builtin : ∀ b, Resolved (.builtin b)
  | definition : ∀ body, (∀ t ∈ body, Resolved t) → Resolved (.definition body)

/-- The dictionary invariant of the spec: every stored value is fully
resolved. -/
def DictOk (s : State) : Prop := ∀ p ∈ s.dictionary, Resolved p.2

/-- Shape of the tokens `Forth::tokenize` can put into the capture buffer:
only numbers and words (`":"` is skipped and `";"` closes the buffer, so
neither `userDefined` nor anything else ever enters it). -/
def BufTok (t : Token) : Prop :=
  (∃ n, t = Token.num n) ∨ (∃ w, t = Token.word w)

/-- Shape of the tokens `Forth::tokenize` can emit at top level: buffer-shaped
tokens plus `userDefined` captures over buffer-shaped tokens. -/
def TopTok (t : Token) : Prop :=
  BufTok t ∨ ∃ body, t = Token.userDefined body ∧ ∀ b ∈ body, BufTok b

/-- Tokens that can reach the evaluator: tokenizer output at top level, or
fully resolved tokens coming out of the dictionary. -/
def EvalTok (t : Token) : Prop := TopTok t ∨ Resolved t

/-- Lifting of `EvalTok` to the two argument shapes of `evalCore`. -/
def EvalIn : Token ⊕ List Token → Prop
  | Sum.inl t => EvalTok t
  | Sum.inr l => ∀ t ∈ l, EvalTok t

/-- Join a fragment list with single spaces, the inverse of `splitSp` (used
to state what the lexer of the source actually guarantees). -/
def joinSp : List (List Char) → List Char
  | [] => []
  | [w] => w
  | w :: ws => w ++ ' ' :: joinSp ws

/-- Dictionary lookups return values stored in the dictionary. -/
theorem lookup_mem {s : State} {w : String} {t : Token}
    (h : State.lookup s w = some t) : ∃ k, (k, t) ∈ s.dictionary := by
  unfold State.lookup at h
  cases hf : s.dictionary.find? (fun p => p.1 = lowerStr w) with
  | none => rw [hf] at h; cases h
  | some p =>
    rw [hf] at h
    cases h
    exact ⟨p.1, by have := List.mem_of_find?_eq_some hf; simpa using this⟩

/-- C3 (confirmed): for a stack ending in `a b` (`b` nearer the top: the
stack list is top-first, so `... a b` is `b :: a :: rest`; `b` is popped
first by `pop2`), `+` leaves `a+b` on top, `-` leaves `a-b`, `*` leaves
`a*b`, `/` leaves `a/b` and fails with `DivisionByZero` when `b = 0`, `mod`
leaves `fmod a b` (the `f64 %` of the source; fails when `b = 0`), and
`/mod` pushes `fmod a b` then `a/b` (fails when `b = 0`). -/
theorem spec_c3 : ∀ (dict : List (String × Token)) (o : List OutEvent)
    (rest : List ℚ) (a b : ℚ),
    (ForthBuiltin.eval .Add ⟨dict, b :: a :: rest, o⟩ =
      (.ok none, ⟨dict, (a + b) :: rest, o⟩)) ∧
    (ForthBuiltin.eval .Subtract ⟨dict, b :: a :: rest, o⟩ =
      (.ok none, ⟨dict, (a - b) :: rest, o⟩)) ∧
    (ForthBuiltin.eval .Multiply ⟨dict, b :: a :: rest, o⟩ =
      (.ok none, ⟨dict, (a * b) :: rest, o⟩)) ∧
    (b ≠ 0 → ForthBuiltin.eval .Divide ⟨dict, b :: a :: rest, o⟩ =
      (.ok none, ⟨dict, (a / b) :: rest, o⟩)) ∧
    (b = 0 → ForthBuiltin.eval .Divide ⟨dict, b :: a :: rest, o⟩ =
      (.error .divisionByZero, ⟨dict, rest, o⟩)) ∧
    (b ≠ 0 → ForthBuiltin.eval .Mod ⟨dict, b :: a :: rest, o⟩ =
      (.ok none, ⟨dict, fmod a b :: rest, o⟩)) ∧
    (b = 0 → ForthBuiltin.eval .Mod ⟨dict, b :: a :: rest, o⟩ =
      (.error .divisionByZero, ⟨dict, rest, o⟩)) ∧
    (b ≠ 0 → ForthBuiltin.eval .SlashMod ⟨dict, b :: a :: rest, o⟩ =
      (.ok none, ⟨dict, (a / b) :: fmod a b :: rest, o⟩)) ∧
    (b = 0 → ForthBuiltin.eval .SlashMod ⟨dict, b :: a :: rest, o⟩ =
      (.error .divisionByZero, ⟨dict, rest, o⟩)) := by
  intro dict o rest a b
  refine ⟨rfl, rfl, rfl, ?_, ?_, ?_, ?_, ?_, ?_⟩ <;> intro hb <;>
    simp [ForthBuiltin.eval, State.pop2, State.push, hb]

/-- Witness for `spec_c3` at concrete inputs, division hypotheses
discharged at `b = 2` and `b = 0`. -/
theorem spec_c3_witness :
    ForthBuiltin.eval .Add ⟨([] : List (String × Token)), [2, 7], ([] : List OutEvent)⟩ =
      (.ok none, ⟨([] : List (String × Token)), [(7 + 2 : ℚ)], ([] : List OutEvent)⟩) ∧
    ForthBuiltin.eval .Divide ⟨([] : List (String × Token)), [(0 : ℚ), 7], ([] : List OutEvent)⟩ =
      (.error .divisionByZero, ⟨([] : List (String × Token)), [(7 : ℚ)].tail, ([] : List OutEvent)⟩) ∧
    ForthBuiltin.eval .Divide ⟨([] : List (String × Token)), [(2 : ℚ), 7], ([] : List OutEvent)⟩ =
      (.ok none, ⟨([] : List (String × Token)), [(7 / 2 : ℚ)], ([] : List OutEvent)⟩) :=
  ⟨(spec_c3 [] [] [] 7 2).1,
   (spec_c3 [] [] [] 7 0).2.2.2.2.1 rfl,
   (spec_c3 [] [] [] 7 2).2.2.2.1 (by norm_num)⟩

/-- C2 counterexample: `eval("1 swap")` does fail with `StackUnderflow`, but
it does NOT leave `[1.0]` on the stack — `pop2` pops eagerly, so the stack
is left empty, refuting the claim that a failing operation leaves the stack
exactly as it was. -/
theorem spec_c2_cex :
    (Forth.eval 50 Forth.new ("1 swap")).map (fun p => (p.1, p.2.stack)) =
      some (.error .stackUnderflow, ([] : List ℚ)) ∧
    ([] : List ℚ) ≠ [1] := by
  constructor
  · rfl
  · decide

/-- C2 (amended): operations needing one or two operands do fail with
`StackUnderflow` when the stack is too small, but the check is NOT atomic:
`pop2` removes the top element before noticing the stack is exhausted, so a
failing two-operand operation on a one-element stack leaves the stack
empty; one-operand operations (and `dup`, which peeks) leave the stack
unchanged when it is empty; `eval("1 swap")` fails with `StackUnderflow`
and leaves the stack empty. -/
theorem spec_c2_amended : ∀ (dict : List (String × Token)) (o : List OutEvent),
    (∀ b : ForthBuiltin,
      b ∈ [ForthBuiltin.Add, .Subtract, .Multiply, .Divide, .Mod, .SlashMod,
           .TwoDrop, .TwoDup, .Over, .TwoOver, .Rot, .Swap, .TwoSwap] →
      (ForthBuiltin.eval b ⟨dict, ([] : List ℚ), o⟩ =
        (.error .stackUnderflow, ⟨dict, ([] : List ℚ), o⟩)) ∧
      ∀ v : ℚ, ForthBuiltin.eval b ⟨dict, [v], o⟩ =
        (.error .stackUnderflow, ⟨dict, ([] : List ℚ), o⟩)) ∧
    (∀ b : ForthBuiltin,
      b ∈ [ForthBuiltin.Display, .Drop, .Emit, .Spaces, .Dup] →
      ForthBuiltin.eval b ⟨dict, ([] : List ℚ), o⟩ =
        (.error .stackUnderflow, ⟨dict, ([] : List ℚ), o⟩)) ∧
    (Forth.eval 50 Forth.new ("1 swap")).map (fun p => (p.1, p.2.stack)) =
      some (.error .stackUnderflow, ([] : List ℚ)) := by
  intro dict o
  refine ⟨?_, ?_, rfl⟩
  · intro b hb
    fin_cases hb <;> exact ⟨rfl, fun v => rfl⟩
  · intro b hb
    fin_cases hb <;> rfl

/-- Witness for `spec_c2_amended`: the membership hypotheses discharged at
`swap` (two-operand) and `drop` (one-operand). -/
theorem spec_c2_witness :
    ForthBuiltin.eval .Swap ⟨([] : List (String × Token)), [(1 : ℚ)], ([] : List OutEvent)⟩ =
      (.error .stackUnderflow, ⟨([] : List (String × Token)), ([] : List ℚ), ([] : List OutEvent)⟩) ∧
    ForthBuiltin.eval .Drop ⟨([] : List (String × Token)), ([] : List ℚ), ([] : List OutEvent)⟩ =
      (.error .stackUnderflow, ⟨([] : List (String × Token)), ([] : List ℚ), ([] : List OutEvent)⟩) :=
  ⟨((spec_c2_amended [] []).1 .Swap (by decide)).2 1,
   (spec_c2_amended [] []).2.1 .Drop (by decide)⟩

/-- C1 counterexample: the result value of `eval("5 6 +")` is NOT
`Some 11.0` — the `+` builtin returns `Ok(None)` after pushing, and
`Forth::run` reports the last produced value, so the call's result value is
`none` (the source's own test `simple_addition_works` asserts exactly
this). -/
theorem spec_c1_cex :
    (Forth.eval 50 Forth.new ("5 6 +")).map (fun p => p.1) = some (.ok none) ∧
    (some (Except.ok (some (11 : ℚ))) : Option (Except ForthError (Option ℚ)))
      ≠ some (.ok none) := by
  constructor
  · rfl
  · intro h
    cases h

unseal Rat.add Rat.sub Rat.mul Rat.inv in
/-- C1 (amended): `eval("5 6 +")` succeeds, the value `11.0` produced by `+`
is pushed onto the stack (final stack `[11.0]`), but the call's result value
is `none`: builtins push internally and produce no value, and the call
returns the last produced value, here that of the trailing `+`. -/
theorem spec_c1_amended :
    (Forth.eval 50 Forth.new ("5 6 +")).map (fun p => (p.1, p.2.stack)) =
      some (.ok none, [11]) := by
  rfl

unseal Rat.add Rat.sub Rat.mul Rat.inv in
/-- C4 (confirmed): after `: foo 5 ;`, `: bar foo ;`, `: foo 6 ;` from a
fresh session, evaluating `"bar foo"` leaves the stack `[5.0, 6.0]` (bottom
to top; the stack list is top-first so its reverse is compared): `bar` kept
the binding of `foo` snapshotted when `bar`'s definition was installed,
immune to the later redefinition. -/
theorem spec_c4 :
    (Forth.eval 50 Forth.new (": foo 5 ;")).map (fun p => p.1) = some (.ok none) ∧
    (Forth.eval 50 (stateAfter 50 Forth.new (": foo 5 ;")) (": bar foo ;")).map
      (fun p => p.1) = some (.ok none) ∧
    (Forth.eval 50 (stateAfter 50 (stateAfter 50 Forth.new (": foo 5 ;"))
      (": bar foo ;")) (": foo 6 ;")).map (fun p => p.1) = some (.ok none) ∧
    (Forth.eval 50 (stateAfter 50 (stateAfter 50 (stateAfter 50 Forth.new
      (": foo 5 ;")) (": bar foo ;")) (": foo 6 ;")) ("bar foo")).map
      (fun p => (p.1, p.2.stack.reverse)) = some (.ok none, [5, 6]) := by
  exact ⟨rfl, rfl, rfl, rfl⟩

/-- C5 counterexample: `eval("nosuch : foo 1 ;")` reports
`UnknownWord("nosuch")` and does NOT install `foo` — the dictionary lookup
after the call is `none`, refuting the claim that the compile phase installs
the definition before evaluation of the line's earlier tokens. -/
theorem spec_c5_cex :
    (Forth.eval 50 Forth.new ("nosuch : foo 1 ;")).map
      (fun p => (p.1, State.lookup p.2 ("foo"))) =
      some (.error (.unknownWord ("nosuch")), none) := by
  rfl

unseal Rat.add Rat.sub Rat.mul Rat.inv in
/-- C5 (amended): `Forth::tokenize` produces the `userDefined` token for a
closed definition block but never touches the dictionary (it is a pure
function of the lexemes in this model, as in the source, where it takes
`&self`); the dictionary entry is installed only when the evaluation phase
executes that token, so an earlier failing token of the same line prevents
the installation: `eval("nosuch : foo 1 ;")` reports `UnknownWord("nosuch")`
and installs nothing, while `eval(": foo 1 ;")` installs
`foo ↦ Definition [1.0]`. -/
theorem spec_c5_amended :
    Forth.tokenize (Forth.lex (("nosuch : foo 1 ;" : String).data)) =
      .ok [.word ("nosuch"), .userDefined [.word ("foo"), .num 1]] ∧
    (Forth.eval 50 Forth.new ("nosuch : foo 1 ;")).map
      (fun p => (p.1, State.lookup p.2 ("foo"))) =
      some (.error (.unknownWord ("nosuch")), none) ∧
    (Forth.eval 50 Forth.new (": foo 1 ;")).map
      (fun p => (p.1, State.lookup p.2 ("foo"))) =
      some (.ok none, some (.definition [.num 1])) := by
  exact ⟨rfl, rfl, rfl⟩

unseal Rat.add Rat.sub Rat.mul Rat.inv in
/-- C9 (confirmed): an error aborts the run loop at the failing token — the
remaining tokens are never executed and the error plus the state mutated so
far are returned unchanged; concretely `eval("1 2 + foo")` (with `foo`
never defined) reports `UnknownWord("foo")` and leaves exactly `[3.0]` on
the stack. -/
theorem spec_c9 :
    (∀ (fuel : Nat) (t : Token) (rest : List Token) (s : State)
      (r0 : Option ℚ) (e : ForthError) (s2 : State),
      evalCore fuel (Sum.inl t) s = some (.error e, s2) →
      Forth.runGo fuel (t :: rest) s r0 = some (.error e, s2)) ∧
    (Forth.eval 50 Forth.new ("1 2 + foo")).map (fun p => (p.1, p.2.stack)) =
      some (.error (.unknownWord ("foo")), [3]) := by
  constructor
  · intro fuel t rest s r0 e s2 h
    unfold Forth.runGo
    rw [h]
  · rfl

/-- Witness for `spec_c9`: the abort law applied at the concrete failing
token `foo` on a fresh state, the premise discharged by computation. -/
theorem spec_c9_witness :
    Forth.runGo 5 [Token.word ("foo"), Token.num 9] Forth.new none =
      some (.error (.unknownWord ("foo")), Forth.new) :=
  spec_c9.1 5 (Token.word ("foo")) [Token.num 9] Forth.new none
    (.unknownWord ("foo")) Forth.new rfl

unseal Rat.add Rat.sub Rat.mul Rat.inv in
/-- C10 (confirmed): two consecutive spaces produce an empty lexeme, which
`tokenize` turns into `Word("")`; evaluating it fails with
`UnknownWord("")`: `eval("1  2")` yields `UnknownWord("")` and leaves
`[1.0]` on the stack. -/
theorem spec_c10 :
    Forth.tokenize (Forth.lex (("1  2" : String).data)) =
      .ok [.num 1, .word (""), .num 2] ∧
    (Forth.eval 50 Forth.new ("1  2")).map (fun p => (p.1, p.2.stack)) =
      some (.error (.unknownWord ("")), [1]) := by
  exact ⟨rfl, rfl⟩

/-- Once inside a capture region, a lexeme stream containing no `";"` can
never leave it: tokenization ends with the flag still set and reports
`Unterminated`. -/
theorem tokenizeGo_unterminated :
    ∀ (l2 : List String), (";" : String) ∉ l2 →
    ∀ (toks buf : List Token), Forth.tokenizeGo l2 toks buf true = .error .unterminated := by
  intro l2
  induction l2 with
  | nil => intro _ toks buf; rfl
  | cons item r ih =>
    intro h toks buf
    have hr : (";" : String) ∉ r := fun hm => h (List.mem_cons_of_mem _ hm)
    have hitem : item ≠ (";" : String) := fun he => h (he ▸ List.mem_cons_self _ _)
    by_cases hc : item = (":" : String)
    · simp only [Forth.tokenizeGo, if_pos hc]
      exact ih hr _ _
    · simp only [Forth.tokenizeGo, if_neg hc]
      cases hp : parseNum item with
      | some v =>
        simp only [Forth.tokenizePlace, if_pos rfl]
        exact ih hr _ _
      | none =>
        simp only [if_neg hitem, Forth.tokenizePlace, if_pos rfl]
        exact ih hr _ _

/-- A `":"` followed (anywhere later) by no `";"` leaves the whole line
unterminated, whatever came before the `":"` and whatever state the loop is
in when reaching it. -/
theorem tokenizeGo_colon_unterminated :
    ∀ (l1 l2 : List String), (";" : String) ∉ l2 →
    ∀ (toks buf : List Token) (inUD : Bool),
    Forth.tokenizeGo (l1 ++ (":" : String) :: l2) toks buf inUD = .error .unterminated := by
  intro l1
  induction l1 with
  | nil =>
    intro l2 h toks buf inUD
    simp only [List.nil_append, Forth.tokenizeGo, if_pos rfl]
    exact tokenizeGo_unterminated l2 h toks buf
  | cons item r ih =>
    intro l2 h toks buf inUD
    rw [List.cons_append]
    by_cases hc : item = (":" : String)
    · simp only [Forth.tokenizeGo, if_pos hc]
      exact ih l2 h _ _ _
    · simp only [Forth.tokenizeGo, if_neg hc]
      cases hp : parseNum item with
      | some v =>
        simp only [Forth.tokenizePlace]
        by_cases hud : inUD
        · simp only [if_pos hud]; exact ih l2 h _ _ _
        · simp only [if_neg hud]; exact ih l2 h _ _ _
      | none =>
        by_cases hs : item = (";" : String)
        · simp only [if_pos hs, Forth.tokenizePlace, if_neg Bool.false_ne_true]
          exact ih l2 h _ _ _
        · simp only [if_neg hs, Forth.tokenizePlace]
          by_cases hud : inUD
          · simp only [if_pos hud]; exact ih l2 h _ _ _
          · simp only [if_neg hud]; exact ih l2 h _ _ _

/-- C8 (confirmed): a line still inside a definition-capture region at its
end fails with `Unterminated` — in general, any lexeme list of the shape
`l1 ++ ":" :: l2` with no `";"` in `l2` tokenizes to `Unterminated` — and
`eval` then leaves the session state completely unchanged (in particular no
partial definition is installed), whatever the state was; the three
scenario lines `":"`, `": foo"` and `": foo 1"` all behave this way. -/
theorem spec_c8 :
    (∀ (l1 l2 : List String), (";" : String) ∉ l2 →
      ∀ (toks buf : List Token) (inUD : Bool),
      Forth.tokenizeGo (l1 ++ (":" : String) :: l2) toks buf inUD =
        .error .unterminated) ∧
    (∀ (fuel : Nat) (s : State),
      Forth.eval fuel s (":") = some (.error .unterminated, s)) ∧
    (∀ (fuel : Nat) (s : State),
      Forth.eval fuel s (": foo") = some (.error .unterminated, s)) ∧
    (∀ (fuel : Nat) (s : State),
      Forth.eval fuel s (": foo 1") = some (.error .unterminated, s)) := by
  refine ⟨tokenizeGo_colon_unterminated, ?_, ?_, ?_⟩ <;> intro fuel s <;> rfl

/-- Witness for `spec_c8`: the no-`";"` premise discharged on the concrete
tail `["foo"]`, and the state-preservation parts applied at a fresh state. -/
theorem spec_c8_witness :
    Forth.tokenizeGo [(":" : String), ("foo" : String)] ([] : List Token)
      ([] : List Token) false = .error .unterminated ∧
    Forth.eval 7 Forth.new (":") = some (.error .unterminated, Forth.new) :=
  ⟨spec_c8.1 [] [("foo" : String)] (by decide) [] [] false,
   spec_c8.2.1 7 Forth.new⟩

/-- The splitter never returns an empty fragment list. -/
theorem splitSp_ne_nil : ∀ cs : List Char, splitSp cs ≠ [] := by
  intro cs
  cases cs with
  | nil => simp [splitSp]
  | cons c rest =>
    by_cases hc : c = ' '
    · simp [splitSp, hc]
    · simp only [splitSp, if_neg hc]
      cases splitSp rest with
      | nil => simp
      | cons w ws => simp

/-- Joining the split fragments with single spaces restores the line: the
lexer loses nothing and splits exactly at each space character. -/
theorem splitSp_joinSp : ∀ cs : List Char, joinSp (splitSp cs) = cs := by
  intro cs
  induction cs with
  | nil => rfl
  | cons c rest ih =>
    by_cases hc : c = ' '
    · simp only [splitSp, if_pos hc]
      cases hs : splitSp rest with
      | nil => exact absurd hs (splitSp_ne_nil rest)
      | cons w ws =>
        rw [hs] at ih
        subst hc
        simpa [joinSp] using ih
    · simp only [splitSp, if_neg hc]
      cases hs : splitSp rest with
      | nil => exact absurd hs (splitSp_ne_nil rest)
      | cons w ws =>
        rw [hs] at ih
        cases ws with
        | nil => simpa [joinSp] using ih
        | cons y ys => simpa [joinSp] using ih

/-- No fragment produced by the splitter contains a space character. -/
theorem splitSp_no_space : ∀ (cs : List Char) (w : List Char),
    w ∈ splitSp cs → (' ') ∉ w := by
  intro cs
  induction cs with
  | nil =>
    intro w hw
    simp [splitSp] at hw
    simp [hw]
  | cons c rest ih =>
    intro w hw
    by_cases hc : c = ' '
    · rw [splitSp, if_pos hc] at hw
      rcases List.mem_cons.mp hw with h | h
      · simp [h]
      · exact ih w h
    · rw [splitSp, if_neg hc] at hw
      cases hs : splitSp rest with
      | nil => exact absurd hs (splitSp_ne_nil rest)
      | cons w0 ws =>
        rw [hs] at hw
        rcases List.mem_cons.mp hw with h | h
        · subst h
          intro hsp
          rcases List.mem_cons.mp hsp with h2 | h2
          · exact hc h2.symm
          · exact ih w0 (hs ▸ List.mem_cons_self w0 ws) h2
        · exact ih w (hs ▸ List.mem_cons_of_mem w0 h)

/-- C7 counterexample: the lexer does NOT case-fold (`lex "A" = ["A"]`, not
`["a"]`) and does NOT split on general whitespace (`lex "1\t2"` is the
single lexeme `"1\t2"`, the tab is kept inside), refuting the claimed lexer
contract; case handling happens later, at lookup time. -/
theorem spec_c7_cex :
    Forth.lex (("A" : String).data) = [("A" : String)] ∧
    [("A" : String)] ≠ [("a" : String)] ∧
    Forth.lex (("1\t2" : String).data) = [("1\t2" : String)] ∧
    [("1\t2" : String)] ≠ [("1" : String), ("2" : String)] := by
  refine ⟨rfl, ?_, rfl, ?_⟩ <;> decide

unseal Rat.add Rat.sub Rat.mul Rat.inv in
/-- C7 (amended): the lexer splits the line at each single SPACE character
(not general whitespace), keeps the original case, and never fails; joining
the lexemes with one space restores the line and no lexeme contains a
space.  Case-insensitivity is provided by the later lookup/builtin
resolution (which lower-case the name): `eval("1 DUP")` duplicates, while
an unknown word is reported in its ORIGINAL spelling:
`eval("QQQ")` fails with `UnknownWord("QQQ")`, not `UnknownWord("qqq")`. -/
theorem spec_c7_amended :
    (∀ line : List Char, joinSp (splitSp line) = line) ∧
    (∀ (line : List Char) (w : String), w ∈ Forth.lex line → (' ') ∉ w.data) ∧
    ((Forth.eval 50 Forth.new ("1 DUP")).map (fun p => (p.1, p.2.stack)) =
      some (.ok none, [1, 1])) ∧
    ((Forth.eval 50 Forth.new ("QQQ")).map (fun p => p.1) =
      some (.error (.unknownWord ("QQQ")))) := by
  refine ⟨splitSp_joinSp, ?_, ?_, rfl⟩
  · intro line w hw
    unfold Forth.lex at hw
    rcases List.mem_map.mp hw with ⟨l, hl, hlw⟩
    subst hlw
    exact splitSp_no_space line l hl
  · rfl

/-- Witness for `spec_c7_amended`: the lexeme-membership premise discharged
on the concrete line `"ab cd"` and lexeme `"ab"`. -/
theorem spec_c7_witness :
    (' ') ∉ (("ab" : String)).data :=
  spec_c7_amended.2.1 (("ab cd" : String).data) ("ab") (by decide)

/-- Values returned by `State.lookup` satisfy the dictionary invariant. -/
theorem lookup_resolved {s : State} (hd : DictOk s) {w : String} {t : Token}
    (h : State.lookup s w = some t) : Resolved t := by
  rcases lookup_mem h with ⟨k, hk⟩
  exact hd (k, t) hk

/-- `lookup_definition` turns a buffer-shaped token into a resolved one
whenever it succeeds (numbers pass through, words become their stored —
resolved — binding or a builtin). -/
theorem lookupDefinition_resolved {s : State} (hd : DictOk s) {t t2 : Token}
    (hb : BufTok t) (h : Token.lookupDefinition s t = .ok t2) : Resolved t2 := by
  rcases hb with ⟨n, rfl⟩ | ⟨w, rfl⟩
  · have h2 : (Except.ok (Token.num n) : Except ForthError Token) = .ok t2 := h
    cases h2
    exact Resolved.num n
  · simp only [Token.lookupDefinition] at h
    cases hl : State.lookup s w with
    | some v =>
      rw [hl] at h
      cases h
      exact lookup_resolved hd hl
    | none =>
      rw [hl] at h
      cases hp : Token.parseWord w with
      | ok b => rw [hp] at h; cases h; exact Resolved.builtin b
      | error e => rw [hp] at h; cases h

/-- The resolution pass over a whole buffered body produces only resolved
tokens. -/
theorem lookupDefList_resolved {s : State} (hd : DictOk s) :
    ∀ {l l2 : List Token}, (∀ t ∈ l, BufTok t) →
    Token.lookupDefList s l = .ok l2 → ∀ t ∈ l2, Resolved t := by
  intro l
  induction l with
  | nil =>
    intro l2 _ h t ht
    have h2 : (Except.ok ([] : List Token) : Except ForthError (List Token)) = .ok l2 := h
    cases h2
    cases ht
  | cons t0 rest ih =>
    intro l2 hb h t ht
    unfold Token.lookupDefList at h
    cases h1 : Token.lookupDefinition s t0 with
    | error e => rw [h1] at h; cases h
    | ok t2 =>
      rw [h1] at h
      cases h2 : Token.lookupDefList s rest with
      | error e => rw [h2] at h; cases h
      | ok ts =>
        rw [h2] at h
        cases h
        rcases List.mem_cons.mp ht with rfl | hmem
        · exact lookupDefinition_resolved hd (hb t0 (List.mem_cons_self _ _)) h1
        · exact ih (fun x hx => hb x (List.mem_cons_of_mem _ hx)) h2 t hmem

/-- Case analysis of the state returned by `eval_user_defined`: either the
state is unchanged (malformed block or resolution failure) or the lower-cased
name is bound to the freshly resolved body. -/
theorem evalUserDefined_snd (s : State) (body : List Token) :
    (Token.evalUserDefined s body).2 = s ∨
    ∃ name rest collected, body = Token.word name :: rest ∧
      Token.lookupDefList s rest = .ok collected ∧
      (Token.evalUserDefined s body).2 =
        State.defineWord s name (.definition collected) := by
  cases body with
  | nil => exact Or.inl rfl
  | cons t0 rest =>
    cases t0 with
    | word name =>
      cases hL : Token.lookupDefList s rest with
      | ok collected =>
        right
        exact ⟨name, rest, collected, rfl, hL, by
          simp only [Token.evalUserDefined, hL]⟩
      | error e =>
        left
        simp only [Token.evalUserDefined, hL]
    | num n => exact Or.inl rfl
    | builtin b => exact Or.inl rfl
    | definition d => exact Or.inl rfl
    | userDefined u => exact Or.inl rfl

/-- Installing a definition block over a buffer-shaped body preserves the
dictionary invariant: the new entry's body is fully resolved. -/
theorem evalUserDefined_dictOk {s : State} {body : List Token}
    (hd : DictOk s) (hb : ∀ t ∈ body, BufTok t) :
    DictOk (Token.evalUserDefined s body).2 := by
  rcases evalUserDefined_snd s body with h | ⟨name, rest, collected, hbody, hL, h⟩
  · rw [h]; exact hd
  · rw [h]
    intro p hp
    rcases List.mem_cons.mp hp with rfl | hmem
    · exact Resolved.definition collected
        (lookupDefList_resolved hd
          (fun x hx => hb x (hbody ▸ List.mem_cons_of_mem _ hx)) hL)
    · exact hd p hmem

/-- Builtins never touch the dictionary. -/
theorem evalBuiltin_dictionary (b : ForthBuiltin) (s : State) :
    (ForthBuiltin.eval b s).2.dictionary = s.dictionary := by
  rcases s with ⟨d, stk, o⟩
  cases b <;>
    rcases stk with _ | ⟨x1, _ | ⟨x2, _ | ⟨x3, _ | ⟨x4, stk⟩⟩⟩⟩ <;>
    first
      | rfl
      | (by_cases h0 : x1 = (0 : ℚ) <;>
          simp [ForthBuiltin.eval, State.pop2, State.push, h0])

/-- Pushing an optional produced value never touches the dictionary. -/
theorem pushOpt_dictionary (r : Option ℚ) (s : State) :
    (pushOpt r s).dictionary = s.dictionary := by
  cases r <;> rfl

/-- Definitional unfolding of the `word` arm of the evaluator. -/
theorem evalCore_word (fuel : Nat) (w : String) (s : State) :
    evalCore (fuel + 1) (Sum.inl (.word w)) s =
      (match State.lookup s w with
      | some (.num v) => some (.ok (some v), s)
      | some (.definition body) => evalCore fuel (Sum.inr body) s
      | some t2 => some (.error (.invalidWord (tokDebug t2)), s)
      | none =>
        match Token.parseWord w with
        | .ok b => some (ForthBuiltin.eval b s)
        | .error e => some (.error e, s)) := rfl

/-- Definitional unfolding of the sequence arm of the evaluator. -/
theorem evalCore_seq (fuel : Nat) (t : Token) (rest : List Token) (s : State) :
    evalCore (fuel + 1) (Sum.inr (t :: rest)) s =
      (match evalCore fuel (Sum.inl t) s with
      | none => none
      | some (.error e, s2) => some (.error e, s2)
      | some (.ok r, s2) => evalCore fuel (Sum.inr rest) (pushOpt r s2)) := rfl

/-- Core preservation: evaluating any token (or body) of the shapes the
program can actually reach keeps every stored definition fully resolved. -/
theorem evalCore_dictOk :
    ∀ (fuel : Nat) (x : Token ⊕ List Token) (s : State)
      (r : Except ForthError (Option ℚ)) (s2 : State),
      DictOk s → EvalIn x → evalCore fuel x s = some (r, s2) → DictOk s2 := by
  intro fuel
  induction fuel with
  | zero => intro x s r s2 _ _ h; cases h
  | succ fuel ih =>
    intro x s r s2 hd hin h
    rcases x with t | l
    · cases t with
      | num n =>
        have h2 : some ((Except.ok (some n) : Except ForthError (Option ℚ)), s) =
            some (r, s2) := h
        cases h2
        exact hd
      | builtin b =>
        have h3 : ForthBuiltin.eval b s = (r, s2) := by
          injection (show some (ForthBuiltin.eval b s) = some (r, s2) from h)
        intro p hp
        have hdict : s2.dictionary = s.dictionary := by
          rw [show s2 = (ForthBuiltin.eval b s).2 from by rw [h3]]
          exact evalBuiltin_dictionary b s
        rw [hdict] at hp
        exact hd p hp
      | userDefined body =>
        have h3 : Token.evalUserDefined s body = (r, s2) := by
          injection (show some (Token.evalUserDefined s body) = some (r, s2) from h)
        have hbody : ∀ t ∈ body, BufTok t := by
          rcases hin with ((⟨n, heq⟩ | ⟨w, heq⟩) | ⟨body2, heq, hb2⟩) | hres
          · cases heq
          · cases heq
          · cases heq; exact hb2
          · cases hres
        rw [show s2 = (Token.evalUserDefined s body).2 from by rw [h3]]
        exact evalUserDefined_dictOk hd hbody
      | definition body =>
        have h2 : evalCore fuel (Sum.inr body) s = some (r, s2) := h
        have hres : ∀ t ∈ body, Resolved t := by
          rcases hin with ((⟨n, heq⟩ | ⟨w, heq⟩) | ⟨body2, heq, hb2⟩) | hres
          · cases heq
          · cases heq
          · cases heq
          · cases hres with
            | definition body hb => exact hb
        exact ih (Sum.inr body) s r s2 hd (fun t ht => Or.inr (hres t ht)) h2
      | word w =>
        rw [evalCore_word] at h
        cases hl : State.lookup s w with
        | some v =>
          rw [hl] at h
          cases v with
          | num n => cases h; exact hd
          | definition body =>
            have hres : Resolved (Token.definition body) := lookup_resolved hd hl
            have hrb : ∀ t ∈ body, Resolved t := by
              cases hres with
              | definition body hb => exact hb
            exact ih (Sum.inr body) s r s2 hd (fun t ht => Or.inr (hrb t ht)) h
          | builtin b => cases h; exact hd
          | word w2 => cases h; exact hd
          | userDefined u => cases h; exact hd
        | none =>
          rw [hl] at h
          cases hp : Token.parseWord w with
          | ok b =>
            rw [hp] at h
            have h3 : ForthBuiltin.eval b s = (r, s2) := by
              injection h
            intro p hp2
            have hdict : s2.dictionary = s.dictionary := by
              rw [show s2 = (ForthBuiltin.eval b s).2 from by rw [h3]]
              exact evalBuiltin_dictionary b s
            rw [hdict] at hp2
            exact hd p hp2
          | error e => rw [hp] at h; cases h; exact hd
    · cases l with
      | nil =>
        have h2 : some ((Except.ok none : Except ForthError (Option ℚ)), s) =
            some (r, s2) := h
        cases h2
        exact hd
      | cons t rest =>
        rw [evalCore_seq] at h
        cases h1 : evalCore fuel (Sum.inl t) s with
        | none => rw [h1] at h; cases h
        | some p =>
          rw [h1] at h
          rcases p with ⟨res, s3⟩
          have hdt : EvalIn (Sum.inl t) := hin t (List.mem_cons_self _ _)
          cases res with
          | error e =>
            cases h
            exact ih (Sum.inl t) s _ _ hd hdt h1
          | ok rr =>
            have hd3 : DictOk s3 := ih (Sum.inl t) s _ s3 hd hdt h1
            have hd4 : DictOk (pushOpt rr s3) := by
              intro p hp
              rw [pushOpt_dictionary] at hp
              exact hd3 p hp
            exact ih (Sum.inr rest) (pushOpt rr s3) r s2 hd4
              (fun x hx => hin x (List.mem_cons_of_mem _ hx)) h

/-- The run loop preserves the dictionary invariant for tokenizer-shaped
token streams. -/
theorem runGo_dictOk :
    ∀ (toks : List Token) (fuel : Nat) (s : State) (r0 : Option ℚ)
      (r : Except ForthError (Option ℚ)) (s2 : State),
      DictOk s → (∀ t ∈ toks, EvalTok t) →
      Forth.runGo fuel toks s r0 = some (r, s2) → DictOk s2 := by
  intro toks
  induction toks with
  | nil =>
    intro fuel s r0 r s2 hd _ h
    have h2 : some ((Except.ok r0 : Except ForthError (Option ℚ)), s) =
        some (r, s2) := h
    cases h2
    exact hd
  | cons t rest ih =>
    intro fuel s r0 r s2 hd hin h
    rw [show Forth.runGo fuel (t :: rest) s r0 =
        (match evalCore fuel (Sum.inl t) s with
        | none => none
        | some (.error e, s2) => some (.error e, s2)
        | some (.ok rr, s2) => Forth.runGo fuel rest (pushOpt rr s2) rr) from rfl] at h
    cases h1 : evalCore fuel (Sum.inl t) s with
    | none => rw [h1] at h; cases h
    | some p =>
      rw [h1] at h
      rcases p with ⟨res, s3⟩
      have hdt : EvalIn (Sum.inl t) := hin t (List.mem_cons_self _ _)
      cases res with
      | error e =>
        cases h
        exact evalCore_dictOk fuel (Sum.inl t) s _ _ hd hdt h1
      | ok rr =>
        have hd3 : DictOk s3 := evalCore_dictOk fuel (Sum.inl t) s _ s3 hd hdt h1
        have hd4 : DictOk (pushOpt rr s3) := by
          intro p hp
          rw [pushOpt_dictionary] at hp
          exact hd3 p hp
        exact ih fuel (pushOpt rr s3) rr r s2 hd4
          (fun x hx => hin x (List.mem_cons_of_mem _ hx)) h

/-- The tokenizer only ever emits top-level tokens of the restricted shape
`TopTok` (numbers, words, or `userDefined` captures of numbers and words),
provided its accumulators already have that shape. -/
theorem tokenizeGo_topOk :
    ∀ (items : List String) (toks buf : List Token) (inUD : Bool)
      (out2 : List Token),
      (∀ t ∈ toks, TopTok t) → (∀ t ∈ buf, BufTok t) →
      Forth.tokenizeGo items toks buf inUD = .ok out2 → ∀ t ∈ out2, TopTok t := by
  intro items
  induction items with
  | nil =>
    intro toks buf inUD out2 htoks _ h
    cases inUD with
    | true =>
      cases (show (Except.error .unterminated : Except ForthError (List Token)) =
        .ok out2 from h)
    | false =>
      cases (show (Except.ok toks : Except ForthError (List Token)) = .ok out2 from h)
      exact htoks
  | cons item rest ih =>
    intro toks buf inUD out2 htoks hbuf h
    simp only [Forth.tokenizeGo] at h
    by_cases hc : item = (":" : String)
    · rw [if_pos hc] at h
      exact ih toks buf true out2 htoks hbuf h
    · rw [if_neg hc] at h
      cases hp : parseNum item with
      | some v =>
        rw [hp] at h
        cases inUD with
        | true =>
          refine ih toks (buf ++ [Token.num v]) true out2 htoks ?_ h
          intro t ht
          rcases List.mem_append.mp ht with h2 | h2
          · exact hbuf t h2
          · rcases List.mem_singleton.mp h2 with rfl
            exact Or.inl ⟨v, rfl⟩
        | false =>
          refine ih (toks ++ [Token.num v]) ([] : List Token) false out2 ?_ ?_ h
          · intro t ht
            rcases List.mem_append.mp ht with h2 | h2
            · exact htoks t h2
            · rcases List.mem_singleton.mp h2 with rfl
              exact Or.inl (Or.inl ⟨v, rfl⟩)
          · intro t ht; cases ht
      | none =>
        rw [hp] at h
        by_cases hs : item = (";" : String)
        · rw [if_pos hs] at h
          refine ih (toks ++ [Token.userDefined buf]) ([] : List Token) false out2 ?_ ?_ h
          · intro t ht
            rcases List.mem_append.mp ht with h2 | h2
            · exact htoks t h2
            · rcases List.mem_singleton.mp h2 with rfl
              exact Or.inr ⟨buf, rfl, hbuf⟩
          · intro t ht; cases ht
        · rw [if_neg hs] at h
          cases inUD with
          | true =>
            refine ih toks (buf ++ [Token.word item]) true out2 htoks ?_ h
            intro t ht
            rcases List.mem_append.mp ht with h2 | h2
            · exact hbuf t h2
            · rcases List.mem_singleton.mp h2 with rfl
              exact Or.inr ⟨item, rfl⟩
          | false =>
            refine ih (toks ++ [Token.word item]) ([] : List Token) false out2 ?_ ?_ h
            · intro t ht
              rcases List.mem_append.mp ht with h2 | h2
              · exact htoks t h2
              · rcases List.mem_singleton.mp h2 with rfl
                exact Or.inl (Or.inr ⟨item, rfl⟩)
            · intro t ht; cases ht

/-- Definitional unfolding of `Forth.eval`. -/
theorem Forth.eval_unfold (fuel : Nat) (s : State) (input : String) :
    Forth.eval fuel s input =
      (if (trimChars input.data).isEmpty then some (.ok none, s)
      else
        match Forth.tokenize (Forth.lex (trimChars input.data)) with
        | .error e => some (.error e, s)
        | .ok tokens => Forth.run fuel tokens s) := rfl

/-- C6 (confirmed): every `eval` call preserves the dictionary invariant —
all stored definitions are fully resolved (`Resolved`: each body element is
a number, a builtin, or a nested resolved definition, never a bare `word`,
so executing a stored body never needs a name lookup); the invariant holds
in the fresh session; and a resolved token is never a `word`. -/
theorem spec_c6 :
    (∀ (fuel : Nat) (s : State) (line : String)
      (r : Except ForthError (Option ℚ)) (s2 : State),
      DictOk s → Forth.eval fuel s line = some (r, s2) → DictOk s2) ∧
    DictOk Forth.new ∧
    (∀ t, Resolved t → ∀ w, t ≠ Token.word w) := by
  refine ⟨?_, ?_, ?_⟩
  · intro fuel s line r s2 hd h
    rw [Forth.eval_unfold] at h
    by_cases he : (trimChars line.data).isEmpty = true
    · rw [if_pos he] at h
      cases h
      exact hd
    · rw [if_neg he] at h
      cases htk : Forth.tokenize (Forth.lex (trimChars line.data)) with
      | error e => rw [htk] at h; cases h; exact hd
      | ok toks =>
        rw [htk] at h
        have htop : ∀ t ∈ toks, TopTok t :=
          tokenizeGo_topOk (Forth.lex (trimChars line.data)) ([] : List Token)
            ([] : List Token) false toks
            (fun t ht => absurd ht (List.not_mem_nil t))
            (fun t ht => absurd ht (List.not_mem_nil t)) htk
        exact runGo_dictOk toks fuel s none r s2 hd
          (fun t ht => Or.inl (htop t ht)) h
  · intro p hp
    exact absurd hp (List.not_mem_nil p)
  · intro t hres w
    cases hres <;> simp

unseal Rat.add Rat.sub Rat.mul Rat.inv in
/-- Witness for `spec_c6`: preservation applied to the concrete call
`eval(": foo 1 ;")` on the fresh session, whose premises are discharged by
computation. -/
theorem spec_c6_witness :
    DictOk (stateAfter 20 Forth.new (": foo 1 ;")) :=
  spec_c6.1 20 Forth.new (": foo 1 ;") (.ok none)
    (stateAfter 20 Forth.new (": foo 1 ;"))
    (fun p hp => absurd hp (List.not_mem_nil p)) rfl
